import Mathlib

/-!
Shallow embedding of `src/hexcrc.c`, the Intel HEX record CRC checker.

The scanner (`check_file`) consumes a byte stream (modelled as `List Nat`,
each element the value returned by `fgetc`, i.e. `0..255`) and produces a
verdict.  All C locals of `check_file` are threaded through an explicit
context record `Ctx`.  The fixed-width C types are modelled as `Nat` with
an explicit modulus where the width can matter: `recordSum` is a
`uint64_t`, so every store takes `% 2 ^ 64`; `byte` is a `uint8_t`, so
every store takes `% 256` (the stored expressions never exceed 255, but
the truncation is kept to mirror the source).  The `abort()` in
`hex_to_dec` is modelled by `Option` (`none` is the abort branch), and a
step that would reach it yields the distinguished result `defect`.
-/

namespace HexCrc

/-- C `isdigit` in the default locale, on `fgetc` results. -/
def isdigit (c : Nat) : Bool := decide (48 ≤ c ∧ c ≤ 57)

/-- C `isupper` in the default locale. -/
def isupper (c : Nat) : Bool := decide (65 ≤ c ∧ c ≤ 90)

/-- C `islower` in the default locale. -/
def islower (c : Nat) : Bool := decide (97 ≤ c ∧ c ≤ 122)

/-- C `isalpha` in the default locale. -/
def isalpha (c : Nat) : Bool := isupper c || islower c

/-- C `isalnum` in the default locale. -/
def isalnum (c : Nat) : Bool := isalpha c || isdigit c

/-- C `isxdigit` in the default locale: `0-9`, `A-F`, `a-f`. -/
def isxdigit (c : Nat) : Bool :=
  isdigit c || decide (65 ≤ c ∧ c ≤ 70) || decide (97 ≤ c ∧ c ≤ 102)

/-- `is_hex_char` from hexcrc.c line 34: a valid hex digit that is not a
lowercase letter. -/
def is_hex_char (c : Nat) : Bool :=
  if !isxdigit c then false
  else if isalpha c && islower c then false
  else true

/-- `hex_to_dec` from hexcrc.c line 50.  `none` models the `abort()`
branch reached on a character outside `0-9` and `A-F`. -/
def hex_to_dec (c : Nat) : Option Nat :=
  if 48 ≤ c ∧ c ≤ 57 then some (c - 48)
  else if 65 ≤ c ∧ c ≤ 70 then some (c - 65 + 10)
  else none

/-- `check_crc` from hexcrc.c line 65: the least significant byte of the
accumulated sum must be zero. -/
def check_crc (recsum : Nat) : Bool := (recsum &&& 255) == 0

/-- Modulus of the C `uint64_t` type of `recordSum`. -/
def U64 : Nat := 2 ^ 64

/-- The `enum State` of hexcrc.c line 26. -/
inductive State
  | COMMENT
  | NEW_RECORD
  | BYTE_START
  | BYTE_END
deriving DecidableEq

/-- The local variables of `check_file` (hexcrc.c lines 77-83) that are
live across loop iterations. -/
structure Ctx where
  line : Nat
  col : Nat
  byte : Nat
  recordSum : Nat
  cnt : Nat
  state : State
deriving DecidableEq

/-- Initial values of the locals (hexcrc.c lines 77-83). -/
def init : Ctx :=
  { line := 1, col := 1, byte := 0, recordSum := 0, cnt := 0, state := .COMMENT }

/-- The two messages `check_file` can pass to `log_error` mid-stream:
`lex` is "Expected uppercase hex digit.", `crc` is "Wrong CRC.". -/
inductive Msg
  | lex
  | crc
deriving DecidableEq

/-- Outcome of one loop iteration of `check_file`.  `err` records the
arguments passed to `log_error` (message, line, column, offending input
value) and, in `fail`, the values of all locals at the `return false`
statement, so that claims about the internal state at the moment of
failure can be stated.  `defect` is the `abort()` inside `hex_to_dec`. -/
inductive StepResult
  | ok (ctx : Ctx)
  | err (msg : Msg) (line col input : Nat) (fail : Ctx)
  | defect
deriving DecidableEq

/-- The position update at hexcrc.c lines 151-156: `col` increments, and a
newline then resets it to 1 and increments `line`. -/
def updatePos (ctx : Ctx) (input : Nat) : Ctx :=
  let ctx := { ctx with col := ctx.col + 1 }
  if input == 10 then { ctx with line := ctx.line + 1, col := 1 } else ctx

/-- The `switch (state)` body of hexcrc.c lines 88-149, without the
subsequent position update. -/
def fsaStep (ctx : Ctx) (input : Nat) : StepResult :=
  match ctx.state with
  | .COMMENT =>
      if input == 58 then
        .ok { ctx with cnt := ctx.cnt + 1, state := .NEW_RECORD }
      else
        .ok ctx
  | .NEW_RECORD =>
      if is_hex_char input then
        match hex_to_dec input with
        | some v =>
            .ok { ctx with recordSum := 0, byte := (v <<< 4) % 256,
                           state := .BYTE_START }
        | none => .defect
      else
        .err .lex ctx.line ctx.col input ctx
  | .BYTE_START =>
      if is_hex_char input then
        match hex_to_dec input with
        | some v =>
            .ok { ctx with byte := (ctx.byte ||| v) % 256, state := .BYTE_END }
        | none => .defect
      else
        .err .lex ctx.line ctx.col input ctx
  | .BYTE_END =>
      let sum := (ctx.recordSum + ctx.byte) % U64
      if is_hex_char input then
        match hex_to_dec input with
        | some v =>
            let ctx := { ctx with recordSum := sum, byte := (v <<< 4) % 256,
                                  state := .BYTE_START }
            .ok (if input == 58 then { ctx with state := .NEW_RECORD } else ctx)
        | none => .defect
      else if isalnum input then
        .err .lex ctx.line ctx.col input { ctx with recordSum := sum }
      else if !check_crc sum then
        .err .crc ctx.line ctx.col sum { ctx with recordSum := sum }
      else
        let ctx := { ctx with recordSum := sum, state := .COMMENT }
        .ok (if input == 58 then { ctx with state := .NEW_RECORD } else ctx)

/-- One full loop iteration: the FSA switch followed, when no `return`
fired, by the position update. -/
def step (ctx : Ctx) (input : Nat) : StepResult :=
  match fsaStep ctx input with
  | .ok ctx' => .ok (updatePos ctx' input)
  | r => r

/-- The `while ((input = fgetc(file)) != EOF)` loop: consume the stream
byte by byte, stopping at the first `return`. -/
def runBytes (ctx : Ctx) : List Nat → StepResult
  | [] => .ok ctx
  | b :: bs =>
      match step ctx b with
      | .ok ctx' => runBytes ctx' bs
      | r => r

/-- The observable verdict of `check_file`: `lexError` and `crcError`
carry the `log_error` arguments (line, column, offending value);
`emptyError` and `noRecordError` are the end-of-stream failures;
`defect` marks the unreachable `abort()`. -/
inductive Verdict
  | ok
  | lexError (line col input : Nat)
  | crcError (line col input : Nat)
  | emptyError
  | noRecordError
  | defect
deriving DecidableEq

/-- `check_file` from hexcrc.c line 75: run the loop, then the
end-of-stream checks at lines 159-169. -/
def check_file (s : List Nat) : Verdict :=
  match runBytes init s with
  | .err .lex l c i _ => .lexError l c i
  | .err .crc l c i _ => .crcError l c i
  | .defect => .defect
  | .ok ctx =>
      if ctx.line == 1 && ctx.col == 1 then .emptyError
      else if ctx.cnt == 0 then .noRecordError
      else .ok

/-- The conversion `printf` applies to the `input` argument of
`log_error` under the `%c` directive: the `int` is converted to
`unsigned char`, so the character written is the low byte of the value. -/
def reported_char (v : Nat) : Nat := v % 256

/-- The final record counter of a run that consumes the whole stream. -/
def finalCnt (s : List Nat) : Option Nat :=
  match runBytes init s with
  | .ok ctx => some ctx.cnt
  | _ => none

/-- The value of the local `recordSum` at the `return false` statement of
a run that fails mid-stream. -/
def failRecordSum (s : List Nat) : Option Nat :=
  match runBytes init s with
  | .err _ _ _ _ fc => some fc.recordSum
  | _ => none

/-- Uppercase hex digit encoding a value `d < 16`. -/
def hexDigit (d : Nat) : Nat := if d < 10 then 48 + d else 55 + d

/-- The two uppercase hex digits encoding a byte value `v < 256`, high
nibble first. -/
def encodeByte (v : Nat) : List Nat := [hexDigit (v / 16), hexDigit (v % 16)]

/-! ### Classification lemmas -/

theorem hex_char_iff (c : Nat) :
    is_hex_char c = true ↔ ((48 ≤ c ∧ c ≤ 57) ∨ (65 ≤ c ∧ c ≤ 70)) := by
  unfold is_hex_char isxdigit isdigit isalpha isupper islower
  split_ifs with h1 h2 <;> simp_all <;> omega

theorem check_crc_iff (r : Nat) : check_crc r = true ↔ r % 256 = 0 := by
  have h := Nat.and_pow_two_sub_one_eq_mod r 8
  norm_num at h
  simp [check_crc, h]

theorem hex_to_dec_some (c : Nat) (h : is_hex_char c = true) :
    ∃ v, hex_to_dec c = some v ∧ v ≤ 15 := by
  rw [hex_char_iff] at h
  unfold hex_to_dec
  rcases h with h | h
  · rw [if_pos h]
    exact ⟨c - 48, rfl, by omega⟩
  · rw [if_neg (by omega), if_pos h]
    exact ⟨c - 65 + 10, rfl, by omega⟩

theorem hex_char_alnum (c : Nat) (h : is_hex_char c = true) : isalnum c = true := by
  rw [hex_char_iff] at h
  unfold isalnum isalpha isupper islower isdigit
  rcases h with h | h <;> simp <;> omega

theorem lower_alnum (c : Nat) (h1 : 97 ≤ c) (h2 : c ≤ 122) : isalnum c = true := by
  unfold isalnum isalpha isupper islower isdigit
  simp
  omega

theorem hex_char_ne_colon (c : Nat) (h : is_hex_char c = true) : c ≠ 58 := by
  rw [hex_char_iff] at h
  omega

theorem hex_char_ne_nl (c : Nat) (h : is_hex_char c = true) : c ≠ 10 := by
  rw [hex_char_iff] at h
  omega

theorem hexDigit_hex (d : Nat) (h : d ≤ 15) : is_hex_char (hexDigit d) = true := by
  revert h
  revert d
  decide

theorem hexDigit_dec (d : Nat) (h : d ≤ 15) : hex_to_dec (hexDigit d) = some d := by
  revert h
  revert d
  decide

set_option maxRecDepth 4096 in
theorem nibble_recombine (v : Nat) (h : v < 256) :
    ((((v / 16) <<< 4) % 256 ||| v % 16) % 256) = v := by
  revert h
  revert v
  decide

/-! ### Single-step characterizations -/

theorem updatePos_not_nl (ctx : Ctx) (b : Nat) (h : b ≠ 10) :
    updatePos ctx b = { ctx with col := ctx.col + 1 } := by
  simp [updatePos, h]

theorem step_comment_colon (ctx : Ctx) (h : ctx.state = .COMMENT) :
    step ctx 58 = .ok { ctx with col := ctx.col + 1
                                 cnt := ctx.cnt + 1
                                 state := .NEW_RECORD } := by
  simp [step, fsaStep, h, updatePos]

theorem step_comment_other (ctx : Ctx) (b : Nat) (h : ctx.state = .COMMENT)
    (hb : b ≠ 58) : step ctx b = .ok (updatePos ctx b) := by
  simp [step, fsaStep, h, hb]

theorem step_new_hex (ctx : Ctx) (b v : Nat) (h : ctx.state = .NEW_RECORD)
    (hb : is_hex_char b = true) (hv : hex_to_dec b = some v) :
    step ctx b = .ok { ctx with col := ctx.col + 1
                                recordSum := 0
                                byte := (v <<< 4) % 256
                                state := .BYTE_START } := by
  simp [step, fsaStep, h, hb, hv, updatePos_not_nl _ _ (hex_char_ne_nl b hb)]

theorem step_new_bad (ctx : Ctx) (b : Nat) (h : ctx.state = .NEW_RECORD)
    (hb : is_hex_char b = false) :
    step ctx b = .err .lex ctx.line ctx.col b ctx := by
  simp [step, fsaStep, h, hb]

theorem step_start_hex (ctx : Ctx) (b v : Nat) (h : ctx.state = .BYTE_START)
    (hb : is_hex_char b = true) (hv : hex_to_dec b = some v) :
    step ctx b = .ok { ctx with col := ctx.col + 1
                                byte := (ctx.byte ||| v) % 256
                                state := .BYTE_END } := by
  simp [step, fsaStep, h, hb, hv, updatePos_not_nl _ _ (hex_char_ne_nl b hb)]

theorem step_start_bad (ctx : Ctx) (b : Nat) (h : ctx.state = .BYTE_START)
    (hb : is_hex_char b = false) :
    step ctx b = .err .lex ctx.line ctx.col b ctx := by
  simp [step, fsaStep, h, hb]

theorem step_end_hex (ctx : Ctx) (b v : Nat) (h : ctx.state = .BYTE_END)
    (hb : is_hex_char b = true) (hv : hex_to_dec b = some v) :
    step ctx b = .ok { ctx with col := ctx.col + 1
                                recordSum := (ctx.recordSum + ctx.byte) % U64
                                byte := (v <<< 4) % 256
                                state := .BYTE_START } := by
  have hc : (b == 58) = false := by
    simp [hex_char_ne_colon b hb]
  simp [step, fsaStep, h, hb, hv, hc, updatePos_not_nl _ _ (hex_char_ne_nl b hb)]

theorem step_end_alnum (ctx : Ctx) (b : Nat) (h : ctx.state = .BYTE_END)
    (hb : is_hex_char b = false) (ha : isalnum b = true) :
    step ctx b = .err .lex ctx.line ctx.col b
        { ctx with recordSum := (ctx.recordSum + ctx.byte) % U64 } := by
  simp [step, fsaStep, h, hb, ha]

theorem step_end_term_pass (ctx : Ctx) (b : Nat) (h : ctx.state = .BYTE_END)
    (hb : is_hex_char b = false) (ha : isalnum b = false)
    (hcrc : (ctx.recordSum + ctx.byte) % 256 = 0) :
    step ctx b = .ok (updatePos
        { ctx with recordSum := (ctx.recordSum + ctx.byte) % U64
                   state := if b == 58 then State.NEW_RECORD else State.COMMENT } b) := by
  have hc : check_crc ((ctx.recordSum + ctx.byte) % U64) = true := by
    rw [check_crc_iff, Nat.mod_mod_of_dvd _ (by norm_num [U64]), hcrc]
  by_cases h58 : b = 58
  · subst h58
    simp [step, fsaStep, h, hb, ha, hc]
  · simp [step, fsaStep, h, hb, ha, hc, h58]

theorem step_end_term_fail (ctx : Ctx) (b : Nat) (h : ctx.state = .BYTE_END)
    (hb : is_hex_char b = false) (ha : isalnum b = false)
    (hcrc : (ctx.recordSum + ctx.byte) % 256 ≠ 0) :
    step ctx b = .err .crc ctx.line ctx.col ((ctx.recordSum + ctx.byte) % U64)
        { ctx with recordSum := (ctx.recordSum + ctx.byte) % U64 } := by
  have hc : check_crc ((ctx.recordSum + ctx.byte) % U64) = false := by
    rw [← Bool.not_eq_true, check_crc_iff, Nat.mod_mod_of_dvd _ (by norm_num [U64])]
    exact hcrc
  simp [step, fsaStep, h, hb, ha, hc]

/-! ### Run-level lemmas -/

theorem runBytes_append (ctx : Ctx) (xs ys : List Nat) :
    runBytes ctx (xs ++ ys) =
      match runBytes ctx xs with
      | .ok ctx' => runBytes ctx' ys
      | r => r := by
  induction xs generalizing ctx with
  | nil => simp [runBytes]
  | cons b bs ih =>
      simp only [List.cons_append, runBytes]
      cases step ctx b with
      | ok ctx' => exact ih ctx'
      | err m l c i f => rfl
      | defect => rfl

theorem step_ne_defect (ctx : Ctx) (b : Nat) : step ctx b ≠ .defect := by
  unfold step fsaStep
  by_cases hb : is_hex_char b = true
  · obtain ⟨v, hv, _⟩ := hex_to_dec_some b hb
    cases hs : ctx.state <;> simp [hb, hv] <;> (repeat' split) <;> simp
  · rw [Bool.not_eq_true] at hb
    cases hs : ctx.state <;> simp [hb] <;> (repeat' split) <;> simp

theorem runBytes_ne_defect (s : List Nat) : ∀ ctx : Ctx, runBytes ctx s ≠ .defect := by
  induction s with
  | nil => intro ctx; simp [runBytes]
  | cons b bs ih =>
      intro ctx
      simp only [runBytes]
      cases hstep : step ctx b with
      | ok ctx' => exact ih ctx'
      | err m l c i f => simp
      | defect => exact absurd hstep (step_ne_defect ctx b)

theorem fsaStep_ok_frame (ctx : Ctx) (b : Nat) (ctx₀ : Ctx)
    (h : fsaStep ctx b = .ok ctx₀) :
    ctx₀.line = ctx.line ∧ ctx₀.col = ctx.col ∧ ctx.cnt ≤ ctx₀.cnt := by
  cases hs : ctx.state <;> simp only [fsaStep, hs] at h <;>
    (repeat' split at h) <;> (try cases h) <;> simp_all

theorem step_ok_pos (ctx : Ctx) (b : Nat) (ctx' : Ctx)
    (h : step ctx b = .ok ctx') :
    ((ctx'.line = ctx.line ∧ ctx'.col = ctx.col + 1) ∨
      (ctx'.line = ctx.line + 1 ∧ ctx'.col = 1)) ∧ ctx.cnt ≤ ctx'.cnt := by
  unfold step at h
  cases hf : fsaStep ctx b with
  | ok c0 =>
      rw [hf] at h
      obtain ⟨h1, h2, h3⟩ := fsaStep_ok_frame ctx b c0 hf
      cases h
      unfold updatePos
      by_cases hnl : b = 10
      · simp [hnl, h1, h2, h3]
      · simp [hnl, h1, h2, h3]
  | err m l c i f => rw [hf] at h; cases h
  | defect => rw [hf] at h; cases h

theorem runBytes_pos (s : List Nat) : ∀ ctx ctx' : Ctx,
    1 ≤ ctx.line → 1 ≤ ctx.col → runBytes ctx s = .ok ctx' →
    1 ≤ ctx'.line ∧ 1 ≤ ctx'.col ∧ ctx.cnt ≤ ctx'.cnt ∧
      (s ≠ [] → 2 ≤ ctx'.line ∨ 2 ≤ ctx'.col) := by
  induction s with
  | nil =>
      intro ctx ctx' h1 h2 h
      cases h
      exact ⟨h1, h2, le_refl _, fun hne => absurd rfl hne⟩
  | cons b bs ih =>
      intro ctx ctx' h1 h2 h
      simp only [runBytes] at h
      cases hstep : step ctx b with
      | ok c1 =>
          rw [hstep] at h
          obtain ⟨hpos, hcnt⟩ := step_ok_pos ctx b c1 hstep
          have hl1 : 1 ≤ c1.line := by rcases hpos with ⟨ha, _⟩ | ⟨ha, _⟩ <;> omega
          have hc1' : 1 ≤ c1.col := by rcases hpos with ⟨_, ha⟩ | ⟨_, ha⟩ <;> omega
          cases bs with
          | nil =>
              cases h
              refine ⟨hl1, hc1', hcnt, fun _ => ?_⟩
              rcases hpos with ⟨ha, hb'⟩ | ⟨ha, hb'⟩ <;> omega
          | cons b2 bs2 =>
              obtain ⟨g1, g2, g3, g4⟩ := ih c1 ctx' hl1 hc1' h
              exact ⟨g1, g2, le_trans hcnt g3, fun _ => g4 (by simp)⟩
      | err m l c i f => rw [hstep] at h; cases h
      | defect => exact absurd hstep (step_ne_defect ctx b)

/-! ### Comment-prefix and record runs -/

theorem run_comment (s : List Nat) : ∀ ctx : Ctx, ctx.state = .COMMENT →
    (∀ b ∈ s, b ≠ 58) →
    ∃ ctx', runBytes ctx s = .ok ctx' ∧ ctx'.state = .COMMENT ∧
      ctx'.cnt = ctx.cnt ∧ ctx'.byte = ctx.byte ∧ ctx'.recordSum = ctx.recordSum := by
  induction s with
  | nil =>
      intro ctx h _
      exact ⟨ctx, rfl, h, rfl, rfl, rfl⟩
  | cons b bs ih =>
      intro ctx h hb
      have hb1 : b ≠ 58 := hb b (by simp)
      have hstep := step_comment_other ctx b h hb1
      simp only [runBytes, hstep]
      have hpos : (updatePos ctx b).state = .COMMENT ∧ (updatePos ctx b).cnt = ctx.cnt ∧
          (updatePos ctx b).byte = ctx.byte ∧ (updatePos ctx b).recordSum = ctx.recordSum := by
        unfold updatePos
        by_cases hnl : b = 10 <;> simp [hnl, h]
      obtain ⟨ctx', h1, h2, h3, h4, h5⟩ :=
        ih (updatePos ctx b) hpos.1 (fun x hx => hb x (by simp [hx]))
      exact ⟨ctx', h1, h2, by rw [h3, hpos.2.1], by rw [h4, hpos.2.2.1],
        by rw [h5, hpos.2.2.2]⟩

theorem run_pair (ctx : Ctx) (v : Nat) (hv : v < 256) (tail : List Nat)
    (h : ctx.state = .BYTE_END) :
    runBytes ctx (encodeByte v ++ tail) =
      runBytes { ctx with col := ctx.col + 2
                          recordSum := (ctx.recordSum + ctx.byte) % U64
                          byte := v
                          state := .BYTE_END } tail := by
  have hhi : v / 16 ≤ 15 := by omega
  have hlo : v % 16 ≤ 15 := by omega
  have s1 := step_end_hex ctx (hexDigit (v / 16)) (v / 16) h
    (hexDigit_hex _ hhi) (hexDigit_dec _ hhi)
  simp only [encodeByte, List.cons_append, List.nil_append, runBytes, s1]
  have s2 := step_start_hex
    { ctx with col := ctx.col + 1
               recordSum := (ctx.recordSum + ctx.byte) % U64
               byte := ((v / 16) <<< 4) % 256
               state := .BYTE_START }
    (hexDigit (v % 16)) (v % 16) rfl (hexDigit_hex _ hlo) (hexDigit_dec _ hlo)
  simp only [s2]
  have hnr := nibble_recombine v hv
  simp [hnr]

theorem run_first_pair (ctx : Ctx) (v : Nat) (hv : v < 256) (tail : List Nat)
    (h : ctx.state = .NEW_RECORD) :
    runBytes ctx (encodeByte v ++ tail) =
      runBytes { ctx with col := ctx.col + 2
                          recordSum := 0
                          byte := v
                          state := .BYTE_END } tail := by
  have hhi : v / 16 ≤ 15 := by omega
  have hlo : v % 16 ≤ 15 := by omega
  have s1 := step_new_hex ctx (hexDigit (v / 16)) (v / 16) h
    (hexDigit_hex _ hhi) (hexDigit_dec _ hhi)
  simp only [encodeByte, List.cons_append, List.nil_append, runBytes, s1]
  have s2 := step_start_hex
    { ctx with col := ctx.col + 1
               recordSum := 0
               byte := ((v / 16) <<< 4) % 256
               state := .BYTE_START }
    (hexDigit (v % 16)) (v % 16) rfl (hexDigit_hex _ hlo) (hexDigit_dec _ hlo)
  simp only [s2]
  have hnr := nibble_recombine v hv
  simp [hnr]

theorem run_pairs (vs : List Nat) : ∀ (ctx : Ctx) (tail : List Nat),
    (∀ v ∈ vs, v < 256) → ctx.state = .BYTE_END →
    ∃ ctx', runBytes ctx (vs.flatMap encodeByte ++ tail) = runBytes ctx' tail ∧
      ctx'.state = .BYTE_END ∧ ctx'.cnt = ctx.cnt ∧
      (ctx'.recordSum + ctx'.byte) % U64 =
        (ctx.recordSum + ctx.byte + vs.sum) % U64 := by
  induction vs with
  | nil =>
      intro ctx tail _ h
      exact ⟨ctx, by simp, h, rfl, by simp⟩
  | cons v vtl ih =>
      intro ctx tail hlt h
      have hv : v < 256 := hlt v (by simp)
      rw [List.flatMap_cons, List.append_assoc,
        run_pair ctx v hv (vtl.flatMap encodeByte ++ tail) h]
      obtain ⟨ctx', h1, h2, h3, h4⟩ := ih
        { ctx with col := ctx.col + 2
                   recordSum := (ctx.recordSum + ctx.byte) % U64
                   byte := v
                   state := .BYTE_END }
        tail (fun x hx => hlt x (by simp [hx])) rfl
      refine ⟨ctx', h1, h2, h3, ?_⟩
      rw [h4]
      show ((ctx.recordSum + ctx.byte) % U64 + v + vtl.sum) % U64 =
        (ctx.recordSum + ctx.byte + (v :: vtl).sum) % U64
      rw [List.sum_cons, Nat.add_assoc, Nat.mod_add_mod]

/-! ### Claims -/

/-- C1: a record of uppercase hex digit pairs whose byte values do not sum
to 0 mod 256, terminated by a non-alphanumeric byte, yields the Wrong CRC
verdict, and the character the diagnostic prints (via the `%c` conversion
of `log_error`) is the low byte of the accumulated record checksum, i.e.
the sum of the decoded byte values mod 256. -/
theorem c1_checksum_error_reports_low_byte
    (pre vs : List Nat) (t : Nat) (rest : List Nat) (ctx : Ctx)
    (hpre : runBytes init pre = .ok ctx) (hst : ctx.state = .COMMENT)
    (hvs : vs ≠ []) (hlt : ∀ v ∈ vs, v < 256) (ht : isalnum t = false)
    (hsum : vs.sum % 256 ≠ 0) :
    ∃ l c r, check_file (pre ++ 58 :: (vs.flatMap encodeByte ++ t :: rest)) =
        .crcError l c r ∧ reported_char r = vs.sum % 256 := by
  obtain ⟨v0, vtl, rfl⟩ := List.exists_cons_of_ne_nil hvs
  have hv0 : v0 < 256 := hlt v0 (by simp)
  have hthex : is_hex_char t = false := by
    cases hcase : is_hex_char t
    · rfl
    · rw [hex_char_alnum t hcase] at ht
      cases ht
  have hdvd : (256 : Nat) ∣ U64 := by norm_num [U64]
  obtain ⟨ctx3, h1, h2, h3, h4⟩ := run_pairs vtl
    { ctx with col := ctx.col + 3
               byte := v0
               recordSum := 0
               cnt := ctx.cnt + 1
               state := .BYTE_END } (t :: rest)
    (fun x hx => hlt x (by simp [hx])) rfl
  have hsum3 : (ctx3.recordSum + ctx3.byte) % 256 = (v0 :: vtl).sum % 256 := by
    rw [← Nat.mod_mod_of_dvd _ hdvd, h4, Nat.mod_mod_of_dvd _ hdvd]
    show (0 + v0 + vtl.sum) % 256 = (v0 :: vtl).sum % 256
    rw [Nat.zero_add, List.sum_cons]
  have hterm := step_end_term_fail ctx3 t h2 hthex ht (by rw [hsum3]; exact hsum)
  have hrun : runBytes init (pre ++ 58 :: ((v0 :: vtl).flatMap encodeByte ++ t :: rest)) =
      .err .crc ctx3.line ctx3.col ((ctx3.recordSum + ctx3.byte) % U64)
        { ctx3 with recordSum := (ctx3.recordSum + ctx3.byte) % U64 } := by
    rw [runBytes_append, hpre]
    show runBytes ctx (58 :: ((v0 :: vtl).flatMap encodeByte ++ t :: rest)) =
      .err .crc ctx3.line ctx3.col ((ctx3.recordSum + ctx3.byte) % U64)
        { ctx3 with recordSum := (ctx3.recordSum + ctx3.byte) % U64 }
    have e1 : runBytes ctx (58 :: ((v0 :: vtl).flatMap encodeByte ++ t :: rest)) =
        runBytes { ctx with col := ctx.col + 1
                            cnt := ctx.cnt + 1
                            state := .NEW_RECORD }
          ((v0 :: vtl).flatMap encodeByte ++ t :: rest) := by
      simp only [runBytes, step_comment_colon ctx hst]
    rw [e1, List.flatMap_cons, List.append_assoc, run_first_pair _ v0 hv0 _ rfl]
    have e3 : runBytes ctx3 (t :: rest) = .err .crc ctx3.line ctx3.col
        ((ctx3.recordSum + ctx3.byte) % U64)
        { ctx3 with recordSum := (ctx3.recordSum + ctx3.byte) % U64 } := by
      simp only [runBytes, hterm]
    exact h1.trans e3
  refine ⟨ctx3.line, ctx3.col, (ctx3.recordSum + ctx3.byte) % U64, ?_, ?_⟩
  · simp only [check_file, hrun]
  · show ((ctx3.recordSum + ctx3.byte) % U64) % 256 = (v0 :: vtl).sum % 256
    rw [Nat.mod_mod_of_dvd _ hdvd, hsum3]

/-- C1 witness: the record `:FF` terminated by a newline has byte sum 255,
so the scan reports Wrong CRC with low byte 255. -/
theorem c1_witness :
    ∃ l c r, check_file ([] ++ 58 :: (([255] : List Nat).flatMap encodeByte ++ 10 :: [])) =
        .crcError l c r ∧ reported_char r = ([255] : List Nat).sum % 256 :=
  c1_checksum_error_reports_low_byte [] [255] 10 [] init rfl rfl (by simp)
    (by decide) (by decide) (by decide)

/-- A completed run with a nonempty stream and a nonzero record counter
passes both end-of-stream checks. -/
theorem check_file_ok_of_run (s : List Nat) (ctxF : Ctx) (hs : s ≠ [])
    (hrun : runBytes init s = .ok ctxF) (hcnt : ctxF.cnt ≠ 0) :
    check_file s = .ok := by
  obtain ⟨_, _, _, h4⟩ := runBytes_pos s init ctxF (by decide) (by decide) hrun
  have hpos := h4 hs
  have hline : (ctxF.line == 1 && ctxF.col == 1) = false := by
    rcases hpos with h | h
    · have hne : ctxF.line ≠ 1 := by omega
      simp [hne]
    · have hne : ctxF.col ≠ 1 := by omega
      simp [hne]
  have hcntb : (ctxF.cnt == 0) = false := by simpa using hcnt
  simp [check_file, hrun, hline, hcntb]

/-- C2 counterexample: in `:00:00` the second `:` closes the first record
and reopens, but the record counter ends at 1, not the 2 the claim
implies (one increment per record opened). -/
theorem c2_counterexample :
    finalCnt [58, 48, 48, 58, 48, 48] = some 1 ∧
      finalCnt [58, 48, 48, 58, 48, 48] ≠ some 2 := by
  constructor
  · rfl
  · decide

/-- C2 (amended): at NibbleLow a `:` closes the record — the pending byte
is added to the checksum and its low byte checked, failing with Wrong CRC
otherwise — and the state becomes RecordStart, but the record counter does
NOT increment (only a `:` consumed in the Comment state increments it). -/
theorem c2_adjacent_colon_closes_and_reopens (ctx : Ctx)
    (hst : ctx.state = .BYTE_END) :
    ((ctx.recordSum + ctx.byte) % 256 = 0 →
      step ctx 58 = .ok { ctx with col := ctx.col + 1
                                   recordSum := (ctx.recordSum + ctx.byte) % U64
                                   state := .NEW_RECORD }) ∧
    ((ctx.recordSum + ctx.byte) % 256 ≠ 0 →
      step ctx 58 = .err .crc ctx.line ctx.col ((ctx.recordSum + ctx.byte) % U64)
        { ctx with recordSum := (ctx.recordSum + ctx.byte) % U64 }) := by
  constructor
  · intro hcrc
    have h := step_end_term_pass ctx 58 hst (by decide) (by decide) hcrc
    rw [h]
    simp [updatePos]
  · intro hcrc
    exact step_end_term_fail ctx 58 hst (by decide) (by decide) hcrc

/-- C2 witness: a NibbleLow context with checksum 0 consuming `:` moves to
RecordStart with the counter unchanged at 1. -/
theorem c2_witness :
    step { line := 1, col := 4, byte := 0, recordSum := 0, cnt := 1,
           state := .BYTE_END } 58 =
      .ok { line := 1, col := 5, byte := 0, recordSum := 0, cnt := 1,
            state := .NEW_RECORD } := by
  have h := (c2_adjacent_colon_closes_and_reopens
    { line := 1, col := 4, byte := 0, recordSum := 0, cnt := 1,
      state := .BYTE_END } rfl).1 (by decide)
  simpa using h

/-- C3 counterexample: `G` is a non-hex-digit terminator, yet `:00G` is a
lexical error (the terminator byte is alphanumeric), not Ok as the claim
states. -/
theorem c3_counterexample :
    check_file [58, 48, 48, 71] = .lexError 1 4 71 ∧
      check_file [58, 48, 48, 71] ≠ .ok := by
  constructor
  · rfl
  · decide

/-- C3 (amended): junk prefix without `:`, then `:`, then digit pairs
summing to 0 mod 256, then a NON-ALPHANUMERIC terminator byte or end of
stream, yields Ok. -/
theorem c3_wellformed_record_ok (pre vs tl : List Nat)
    (hpre : ∀ b ∈ pre, b ≠ 58) (hvs : vs ≠ []) (hlt : ∀ v ∈ vs, v < 256)
    (hsum : vs.sum % 256 = 0)
    (htl : tl = [] ∨ ∃ t, tl = [t] ∧ isalnum t = false) :
    check_file (pre ++ 58 :: (vs.flatMap encodeByte ++ tl)) = .ok := by
  obtain ⟨v0, vtl, rfl⟩ := List.exists_cons_of_ne_nil hvs
  have hv0 : v0 < 256 := hlt v0 (by simp)
  have hdvd : (256 : Nat) ∣ U64 := by norm_num [U64]
  obtain ⟨ctx0, hr0, hst0, hcnt0, _, _⟩ := run_comment pre init rfl hpre
  obtain ⟨ctx3, h1, h2, h3, h4⟩ := run_pairs vtl
    { ctx0 with col := ctx0.col + 3
                byte := v0
                recordSum := 0
                cnt := ctx0.cnt + 1
                state := .BYTE_END } tl
    (fun x hx => hlt x (by simp [hx])) rfl
  have hchain : runBytes init (pre ++ 58 :: ((v0 :: vtl).flatMap encodeByte ++ tl)) =
      runBytes ctx3 tl := by
    rw [runBytes_append, hr0]
    show runBytes ctx0 (58 :: ((v0 :: vtl).flatMap encodeByte ++ tl)) = _
    have e1 : runBytes ctx0 (58 :: ((v0 :: vtl).flatMap encodeByte ++ tl)) =
        runBytes { ctx0 with col := ctx0.col + 1
                             cnt := ctx0.cnt + 1
                             state := .NEW_RECORD }
          ((v0 :: vtl).flatMap encodeByte ++ tl) := by
      simp only [runBytes, step_comment_colon ctx0 hst0]
    rw [e1, List.flatMap_cons, List.append_assoc, run_first_pair _ v0 hv0 _ rfl]
    exact h1
  have hsum3 : (ctx3.recordSum + ctx3.byte) % 256 = 0 := by
    rw [← Nat.mod_mod_of_dvd _ hdvd, h4, Nat.mod_mod_of_dvd _ hdvd]
    show (0 + v0 + vtl.sum) % 256 = 0
    rw [Nat.zero_add, ← List.sum_cons]
    exact hsum
  have hcnt3 : ctx3.cnt = ctx0.cnt + 1 := h3
  have hs : pre ++ 58 :: ((v0 :: vtl).flatMap encodeByte ++ tl) ≠ [] := by simp
  rcases htl with rfl | ⟨t, rfl, htna⟩
  · have hok : runBytes init
        (pre ++ 58 :: ((v0 :: vtl).flatMap encodeByte ++ [])) = .ok ctx3 := by
      rw [hchain]
      rfl
    exact check_file_ok_of_run _ ctx3 hs hok (by rw [hcnt3, hcnt0]; simp [init])
  · have hthex : is_hex_char t = false := by
      cases hc : is_hex_char t
      · rfl
      · rw [hex_char_alnum t hc] at htna
        cases htna
    have hterm := step_end_term_pass ctx3 t h2 hthex htna hsum3
    have hok : runBytes init (pre ++ 58 :: ((v0 :: vtl).flatMap encodeByte ++ [t])) =
        .ok (updatePos { ctx3 with recordSum := (ctx3.recordSum + ctx3.byte) % U64
                                   state := if t == 58 then State.NEW_RECORD
                                            else State.COMMENT } t) := by
      rw [hchain]
      simp only [runBytes, hterm]
    refine check_file_ok_of_run _ _ hs hok ?_
    have hcnt4 : (updatePos
        { ctx3 with recordSum := (ctx3.recordSum + ctx3.byte) % U64
                    state := if t == 58 then State.NEW_RECORD
                             else State.COMMENT } t).cnt = ctx3.cnt := by
      unfold updatePos
      by_cases hnl : t = 10 <;> simp [hnl]
    rw [hcnt4, hcnt3, hcnt0]
    simp [init]

/-- C3 witness: scenario D, `hello:00000000` followed by a newline. -/
theorem c3_witness :
    check_file ([104, 101, 108, 108, 111] ++
      58 :: (([0, 0, 0, 0] : List Nat).flatMap encodeByte ++ [10])) = .ok :=
  c3_wellformed_record_ok [104, 101, 108, 108, 111] [0, 0, 0, 0] [10]
    (by decide) (by decide) (by decide) (by decide)
    (Or.inr ⟨10, rfl, by decide⟩)

/-- C4: reaching end of stream mid-record (RecordStart, NibbleHigh or
NibbleLow) with at least one byte read and one record started yields Ok:
no checksum check is performed for the incomplete trailing record. -/
theorem c4_incomplete_trailing_record_ok (s : List Nat) (ctx : Ctx)
    (hrun : runBytes init s = .ok ctx)
    (_hst : ctx.state = .NEW_RECORD ∨ ctx.state = .BYTE_START ∨
      ctx.state = .BYTE_END)
    (hs : s ≠ []) (hcnt : 1 ≤ ctx.cnt) :
    check_file s = .ok :=
  check_file_ok_of_run s ctx hs hrun (by omega)

/-- C4 witness: scenario A, the input `:0` ends in NibbleHigh and passes. -/
theorem c4_witness : check_file [58, 48] = .ok :=
  c4_incomplete_trailing_record_ok [58, 48]
    { line := 1, col := 3, byte := 0, recordSum := 0, cnt := 1,
      state := .BYTE_START }
    rfl (Or.inr (Or.inl rfl)) (by decide) (by decide)

/-- C5 counterexample: on `:0Ag` the lexical failure at `g` happens AFTER
`recordSum += byte` has run: the checksum at the return statement is 10
(the pending byte 0x0A), not the 0 the claim implies. -/
theorem c5_counterexample :
    failRecordSum [58, 48, 65, 103] = some 10 ∧
      failRecordSum [58, 48, 65, 103] ≠ some 0 ∧
      check_file [58, 48, 65, 103] = .lexError 1 4 103 := by
  refine ⟨rfl, by decide, rfl⟩

/-- C5 (amended): in NibbleLow an alphanumeric non-hex byte fails with the
Expected-uppercase-hex-digit message, and at the moment of failure the
record checksum HAS already been incremented by the pending byte (the
increment runs unconditionally on entry to the NibbleLow case). -/
theorem c5_lex_error_after_checksum_increment (ctx : Ctx) (b : Nat)
    (hst : ctx.state = .BYTE_END) (hhex : is_hex_char b = false)
    (halnum : isalnum b = true) :
    step ctx b = .err .lex ctx.line ctx.col b
      { ctx with recordSum := (ctx.recordSum + ctx.byte) % U64 } :=
  step_end_alnum ctx b hst hhex halnum

/-- C5 witness: pending byte 10, checksum 0 before, 10 at the failure. -/
theorem c5_witness :
    step { line := 1, col := 4, byte := 10, recordSum := 0, cnt := 1,
           state := .BYTE_END } 103 =
      .err .lex 1 4 103
        { line := 1, col := 4, byte := 10, recordSum := 10, cnt := 1,
          state := .BYTE_END } := by
  have h := c5_lex_error_after_checksum_increment
    { line := 1, col := 4, byte := 10, recordSum := 0, cnt := 1,
      state := .BYTE_END } 103 rfl (by decide) (by decide)
  simpa using h

/-- C6: the scan reports the empty-file error exactly on the empty stream;
the line-1-column-1 test used by the code holds only when no byte was
consumed. -/
theorem c6_empty_error_iff_empty (s : List Nat) :
    check_file s = .emptyError ↔ s = [] := by
  constructor
  · intro h
    by_contra hne
    cases hr : runBytes init s with
    | ok ctx =>
        obtain ⟨_, _, _, h4⟩ := runBytes_pos s init ctx (by decide) (by decide) hr
        simp only [check_file, hr] at h
        rcases h4 hne with hh | hh
        · have hb : ctx.line ≠ 1 := by omega
          simp [hb] at h
          split at h <;> cases h
        · have hb : ctx.col ≠ 1 := by omega
          simp [hb] at h
          split at h <;> cases h
    | err m l c i f =>
        simp only [check_file, hr] at h
        cases m <;> cases h
    | defect => exact runBytes_ne_defect s init hr
  · intro h
    subst h
    rfl

/-- C6 witness: the empty stream yields the empty-file error. -/
theorem c6_witness : check_file [] = .emptyError :=
  (c6_empty_error_iff_empty []).mpr rfl

/-- C7: a nonempty stream without `:` yields the no-record error, and that
verdict arises exactly from a completed nonempty run with record counter
zero. -/
theorem c7_no_record_error (s : List Nat) :
    ((s ≠ [] ∧ ∀ b ∈ s, b ≠ 58) → check_file s = .noRecordError) ∧
    (check_file s = .noRecordError ↔
      ∃ ctx, runBytes init s = .ok ctx ∧ s ≠ [] ∧ ctx.cnt = 0) := by
  have bwd : (∃ ctx, runBytes init s = .ok ctx ∧ s ≠ [] ∧ ctx.cnt = 0) →
      check_file s = .noRecordError := by
    rintro ⟨ctx, hr, hs, hcnt⟩
    obtain ⟨_, _, _, h4⟩ := runBytes_pos s init ctx (by decide) (by decide) hr
    have hline : (ctx.line == 1 && ctx.col == 1) = false := by
      rcases h4 hs with hh | hh
      · have hb : ctx.line ≠ 1 := by omega
        simp [hb]
      · have hb : ctx.col ≠ 1 := by omega
        simp [hb]
    simp [check_file, hr, hline, hcnt]
  refine ⟨?_, ?_, bwd⟩
  · intro ⟨hs, hnc⟩
    obtain ⟨ctx, hr, _, hcnt, _, _⟩ := run_comment s init rfl hnc
    exact bwd ⟨ctx, hr, hs, by rw [hcnt]; rfl⟩
  · intro h
    cases hr : runBytes init s with
    | defect => exact absurd hr (runBytes_ne_defect s init)
    | err m l c i f =>
        simp only [check_file, hr] at h
        cases m <;> cases h
    | ok ctx =>
        simp only [check_file, hr] at h
        by_cases h1 : (ctx.line == 1 && ctx.col == 1) = true
        · rw [if_pos h1] at h
          cases h
        · rw [if_neg h1] at h
          by_cases h2 : (ctx.cnt == 0) = true
          · refine ⟨ctx, rfl, ?_, by simpa using h2⟩
            rintro rfl
            cases hr
            exact h1 rfl
          · rw [if_neg h2] at h
            cases h

/-- C7 witness: the three-byte stream `abc` yields the no-record error. -/
theorem c7_witness : check_file [97, 98, 99] = .noRecordError :=
  (c7_no_record_error [97, 98, 99]).1 ⟨by decide, by decide⟩

/-- C8: the digit classifier accepts exactly `0`-`9` and `A`-`F`, and a
lowercase hex letter in any digit-expecting state fails with the lexical
error at exactly that byte's line and column. -/
theorem c8_lowercase_rejected :
    (∀ c : Nat, is_hex_char c = true ↔
      ((48 ≤ c ∧ c ≤ 57) ∨ (65 ≤ c ∧ c ≤ 70))) ∧
    (∀ (pre : List Nat) (t : Nat) (rest : List Nat) (ctx : Ctx),
      runBytes init pre = .ok ctx → ctx.state ≠ .COMMENT →
      97 ≤ t → t ≤ 102 →
      check_file (pre ++ t :: rest) = .lexError ctx.line ctx.col t) := by
  refine ⟨hex_char_iff, ?_⟩
  intro pre t rest ctx hpre hst h1 h2
  have hthex : is_hex_char t = false := by
    cases hc : is_hex_char t
    · rfl
    · rw [hex_char_iff] at hc
      omega
  have halnum : isalnum t = true := lower_alnum t h1 (by omega)
  have herr : ∃ fc, step ctx t = .err .lex ctx.line ctx.col t fc := by
    cases hs : ctx.state
    · exact absurd hs hst
    · exact ⟨ctx, step_new_bad ctx t hs hthex⟩
    · exact ⟨ctx, step_start_bad ctx t hs hthex⟩
    · exact ⟨_, step_end_alnum ctx t hs hthex halnum⟩
  obtain ⟨fc, herr⟩ := herr
  have hrun : runBytes init (pre ++ t :: rest) = .err .lex ctx.line ctx.col t fc := by
    rw [runBytes_append, hpre]
    show runBytes ctx (t :: rest) = _
    simp only [runBytes, herr]
  simp only [check_file, hrun]

/-- C8 witness: `a` (97) right after `:` fails at line 1 column 2. -/
theorem c8_witness : check_file ([58] ++ 97 :: []) = .lexError 1 2 97 :=
  c8_lowercase_rejected.2 [58] 97 []
    { line := 1, col := 2, byte := 0, recordSum := 0, cnt := 1,
      state := .NEW_RECORD }
    rfl (by decide) (by decide) (by decide)

/-- C9: decoding is only applied to bytes that passed classification, so
the abort branch of `hex_to_dec` is unreachable: classification success
guarantees a value 0-15, and no scan of any stream reaches the defect. -/
theorem c9_decode_precondition :
    (∀ c : Nat, is_hex_char c = true → ∃ v, hex_to_dec c = some v ∧ v ≤ 15) ∧
    (∀ s : List Nat, check_file s ≠ .defect) := by
  refine ⟨hex_to_dec_some, ?_⟩
  intro s
  cases hr : runBytes init s with
  | ok ctx =>
      simp only [check_file, hr]
      repeat' split
      all_goals simp
  | err m l c i f =>
      simp only [check_file, hr]
      cases m <;> simp
  | defect => exact absurd hr (runBytes_ne_defect s init)

/-- C9 witness: the classifier accepts 65, and decoding yields 10. -/
theorem c9_witness : ∃ v, hex_to_dec 65 = some v ∧ v ≤ 15 :=
  c9_decode_precondition.1 65 rfl

/-- C10: a failing checksum check reports the line and column at which the
terminating non-alphanumeric byte was consumed (the position before the
per-byte update), not the position of the `:` or of any digit. -/
theorem c10_crc_error_at_terminator (pre : List Nat) (t : Nat)
    (rest : List Nat) (ctx : Ctx) (hpre : runBytes init pre = .ok ctx)
    (hst : ctx.state = .BYTE_END) (ht : isalnum t = false)
    (hsum : (ctx.recordSum + ctx.byte) % 256 ≠ 0) :
    check_file (pre ++ t :: rest) =
      .crcError ctx.line ctx.col ((ctx.recordSum + ctx.byte) % U64) := by
  have hthex : is_hex_char t = false := by
    cases hc : is_hex_char t
    · rfl
    · rw [hex_char_alnum t hc] at ht
      cases ht
  have hterm := step_end_term_fail ctx t hst hthex ht hsum
  have hrun : runBytes init (pre ++ t :: rest) = .err .crc ctx.line ctx.col
      ((ctx.recordSum + ctx.byte) % U64)
      { ctx with recordSum := (ctx.recordSum + ctx.byte) % U64 } := by
    rw [runBytes_append, hpre]
    show runBytes ctx (t :: rest) = _
    simp only [runBytes, hterm]
  simp only [check_file, hrun]

/-- C10 witness: after `:0001` the newline at column 6 triggers the check;
the error is reported at line 1 column 6 with value 1. -/
theorem c10_witness : check_file [58, 48, 48, 48, 49, 10] = .crcError 1 6 1 :=
  c10_crc_error_at_terminator [58, 48, 48, 48, 49] 10 []
    { line := 1, col := 6, byte := 1, recordSum := 0, cnt := 1,
      state := .BYTE_END }
    rfl rfl (by decide) (by decide)

end HexCrc
